import Mathlib

/-!
Verification of the natural-language specification of `bestboth.c` and
`sboxalg.c` (Canright AES S-box gate-count optimizer) against a shallow
embedding of the two source files.

The embedding models 16-bit packed columns as `Nat`, the C arrays
`uint32_t mat[128]` / `char ind[256]` as total maps `Nat → Nat` (the C
program never reads an index it has not written, except where a claim is
specifically about such stale reads, which the total-map model represents
faithfully as retained previous values), and the `int` gate counter as
`Int`.  The recursive search `bestgates` is embedded with an explicit
fuel argument; fuel is only consumed when the search actually recurses,
and every theorem about the engine is proved for every fuel value.
-/

/-! ## The share table of bestboth.c

`share[i]` is built by `main` as: `share[0] = 0`; for `i ≥ 1`,
`k = number of 1 bits of i` (the loop `for (j = i & 0xFFFF; j; j >>= 1)
k += j & 1`) and `share[i] = k - 1`.  `bitcountAux` is that bit loop,
made structural on a fuel argument that is always at least the loop
variable, so that it evaluates in the kernel. -/

def bitcountAux : Nat → Nat → Nat
  | 0, _ => 0
  | f + 1, j => if j = 0 then 0 else (j &&& 1) + bitcountAux f (j / 2)

def bitcount (v : Nat) : Nat := bitcountAux v v

/-- The content of the table `share[65536]` of bestboth.c at index `v`. -/
def share (v : Nat) : Nat := if v = 0 then 0 else bitcount v - 1

/-! Specification-side population count: the number of set bits among the
16 bits of a pattern, written independently of the C bit loop. -/

def popcountBits (w v : Nat) : Nat := (List.range w).countP (fun k => v.testBit k)

def specPopcount (v : Nat) : Nat := popcountBits 16 v

lemma bitcountAux_zero (f : Nat) : bitcountAux f 0 = 0 := by
  cases f <;> simp [bitcountAux]

lemma bitcountAux_congr : ∀ f1 f2 v, v ≤ f1 → v ≤ f2 → bitcountAux f1 v = bitcountAux f2 v := by
  intro f1
  induction f1 with
  | zero =>
    intro f2 v hv1 _
    have : v = 0 := Nat.le_zero.mp hv1
    subst this
    rw [bitcountAux_zero, bitcountAux_zero]
  | succ f ih =>
    intro f2 v hv1 hv2
    by_cases hv : v = 0
    · subst hv; rw [bitcountAux_zero, bitcountAux_zero]
    · obtain ⟨f2p, rfl⟩ : ∃ f2p, f2 = f2p + 1 := by
        cases f2 with
        | zero => omega
        | succ m => exact ⟨m, rfl⟩
      simp only [bitcountAux, hv, if_false]
      have hd : v / 2 ≤ f := by omega
      have hd2 : v / 2 ≤ f2p := by omega
      rw [ih f2p (v / 2) hd hd2]

lemma bitcount_rec (v : Nat) (hv : v ≠ 0) : bitcount v = (v &&& 1) + bitcount (v / 2) := by
  obtain ⟨k, rfl⟩ : ∃ k, v = k + 1 := by
    cases v with
    | zero => omega
    | succ m => exact ⟨m, rfl⟩
  show bitcountAux (k + 1) (k + 1) = _
  simp only [bitcountAux, hv, if_false]
  congr 1
  exact bitcountAux_congr k ((k + 1) / 2) ((k + 1) / 2) (by omega) (le_refl _)

lemma popcountBits_succ (w v : Nat) :
    popcountBits (w + 1) v = (if v.testBit 0 then 1 else 0) + popcountBits w (v / 2) := by
  unfold popcountBits
  rw [List.range_succ_eq_map, List.countP_cons, List.countP_map]
  have hcomp : ∀ k, (fun k => v.testBit k) (Nat.succ k) = (fun k => (v / 2).testBit k) k := by
    intro k
    simp [Nat.testBit_succ]
  have : List.countP ((fun k => v.testBit k) ∘ Nat.succ) (List.range w)
      = List.countP (fun k => (v / 2).testBit k) (List.range w) := by
    apply List.countP_congr
    intro a _
    simpa using hcomp a
  rw [this]
  cases h : v.testBit 0 <;> simp [h, Nat.add_comm]

lemma bitcount_eq_popcountBits : ∀ w v, v < 2 ^ w → bitcount v = popcountBits w v := by
  intro w
  induction w with
  | zero =>
    intro v hv
    have : v = 0 := by omega
    subst this
    simp [bitcount, bitcountAux_zero, popcountBits]
  | succ w ih =>
    intro v hv
    by_cases h0 : v = 0
    · subst h0
      simp [bitcount, bitcountAux_zero, popcountBits, Nat.zero_testBit]
    · rw [bitcount_rec v h0, popcountBits_succ]
      have hdiv : v / 2 < 2 ^ w := by
        have := Nat.pow_succ 2 w
        omega
      rw [ih (v / 2) hdiv]
      congr 1
      rw [Nat.and_one_is_mod, Nat.testBit_zero]
      rcases Nat.mod_two_eq_zero_or_one v with h | h <;> simp [h]

lemma bitcount_16 (v : Nat) (hv : v < 65536) : bitcount v = specPopcount v :=
  bitcount_eq_popcountBits 16 v hv

lemma specPopcount_le (v : Nat) : specPopcount v ≤ 16 := by
  have := List.countP_le_length (l := List.range 16) (p := fun k => v.testBit k)
  simpa [specPopcount, popcountBits] using this

lemma share_le_15 (v : Nat) (hv : v < 65536) : share v ≤ 15 := by
  unfold share
  split
  · omega
  · have := specPopcount_le v
    rw [bitcount_16 v hv]
    omega

lemma bitcount_eq_zero : ∀ v : Nat, bitcount v = 0 → v = 0 := by
  intro v
  induction v using Nat.strong_induction_on with
  | _ v ihv =>
    intro hb
    by_cases hz : v = 0
    · exact hz
    · exfalso
      rw [bitcount_rec v hz] at hb
      have h1 : v &&& 1 = 0 := by omega
      have h2 : bitcount (v / 2) = 0 := by omega
      have hhalf : v / 2 = 0 :=
        ihv (v / 2) (Nat.div_lt_self (Nat.pos_of_ne_zero hz) (by omega)) h2
      rw [Nat.and_one_is_mod] at h1
      omega

lemma specPopcount_pos (v : Nat) (h0 : v ≠ 0) (hv : v < 65536) : 1 ≤ specPopcount v := by
  have h := bitcount_16 v hv
  rcases Nat.eq_zero_or_pos (specPopcount v) with hz | hp
  · exact absurd (bitcount_eq_zero v (by omega)) h0
  · exact hp

/-! ## The gate-matrix state of bestboth.c

`GateMat` embeds `struct gatematrix`: `mat` is the column array
`uint32_t mat[128]`, `ind` the history array `char ind[256]`, `n` the
current number of columns, `g` the current gate count.  The arrays are
total maps; entries the program has not written retain their previous
values, exactly as the in-place C arrays do. -/

structure GateMat where
  mat : Nat → Nat
  ind : Nat → Nat
  n : Nat
  g : Int

/-- Pointwise array write, used for every `a[k] = v` of the C code. -/
def upd (f : Nat → Nat) (k v : Nat) : Nat → Nat := fun x => if x = k then v else f x

/-- Lines 125-133 of bestboth.c: `test.n = np; test.g = g - t;` followed by
`test.mat[i] ^= c; test.mat[j] ^= c; test.mat[n] = c; test.ind[n2] = i;
test.ind[n2p] = j;` where `c = test.mat[i] & test.mat[j]`, `t = share[c]`,
and `n`, `g` are the values read at entry of the enclosing call. -/
def combineStep (w : GateMat) (n : Nat) (g0 : Int) (i j : Nat) : GateMat :=
  let c := w.mat i &&& w.mat j
  let t := share c
  let m1 := upd w.mat i (w.mat i ^^^ c)
  let m2 := upd m1 j (m1 j ^^^ c)
  let m3 := upd m2 n c
  { mat := m3
    ind := upd (upd w.ind (2 * (n - 8)) i) (2 * (n - 8) + 1) j
    n := n + 1
    g := g0 - (t : Int) }

/-- Lines 125-136 of bestboth.c: combine, recurse (`rec` is the recursive
call to `bestgates`), then restore `test.mat[i] = ci; test.mat[j] = cj;`.
Only the two columns are restored; `n`, `g` and the history stay as the
recursive call left them. -/
def branchStep (rec : GateMat → GateMat) (w : GateMat) (n : Nat) (g0 : Int) (i j : Nat) : GateMat :=
  let ci := w.mat i
  let cj := w.mat j
  let w2 := rec (combineStep w n g0 i j)
  { w2 with mat := upd (upd w2.mat i ci) j cj }

/-- Search accumulator: the working state `test` together with the local
best-so-far data `gb`, `nb`, `indb` of one `bestgates` call. -/
structure BestAcc where
  w : GateMat
  gb : Int
  nb : Nat
  indb : Nat → Nat

/-- Lines 137-141 of bestboth.c: after a branch returns, save its result
data if it beats the best seen so far in this call. -/
def saveStep (n : Nat) (acc : BestAcc) (w3 : GateMat) : BestAcc :=
  if w3.g < acc.gb then
    { w := w3, gb := w3.g, nb := w3.n, indb := fun q => w3.ind (2 * (n - 8) + q) }
  else
    { acc with w := w3 }

/-- Lines 118-124 of bestboth.c: the pair `(i, j)` is expanded when
`share[mat[i] & mat[j]]` is nonzero (`if (t)`) and the canonical-order
pruning test `i < io && j != io && j != jo && j < nm` does not fire. -/
def expandDecision (w : GateMat) (n io jo : Nat) (i j : Nat) : Bool :=
  if share (w.mat i &&& w.mat j) = 0 then false
  else if i < io ∧ j ≠ io ∧ j ≠ jo ∧ j < n - 1 then false
  else true

/-- One iteration of the double column loop of `bestgates`. -/
def loopStep (rec : GateMat → GateMat) (n : Nat) (g0 : Int) (io jo : Nat)
    (acc : BestAcc) (p : Nat × Nat) : BestAcc :=
  if expandDecision acc.w n io jo p.1 p.2 then
    saveStep n acc (branchStep rec acc.w n g0 p.1 p.2)
  else
    acc

/-- The index pairs visited by `for (i = 0; i < nm; i++) for (j = i + 1;
j < n; j++)`, in visit order. -/
def pairList (n : Nat) : List (Nat × Nat) :=
  (List.range n).bind fun i =>
    (List.range n).filterMap fun j => if i < j then some (i, j) else none

/-- Lines 144-148 of bestboth.c: if some branch improved (`gb < 1024`),
write the best history suffix, column count and gate count back into the
working state. -/
def finishUp (n : Nat) (r : BestAcc) : GateMat :=
  if r.gb < 1024 then
    { r.w with
      n := r.nb
      g := r.gb
      ind := fun k =>
        if 2 * (n - 8) ≤ k ∧ k < 2 * (n - 8) + 2 * (r.nb - n) then r.indb (k - 2 * (n - 8))
        else r.w.ind k }
  else
    r.w

/-- The recursive search `bestgates` of bestboth.c, with an explicit fuel
bounding the recursion depth.  Fuel is consumed only on recursion into a
combined state; a call that expands no pair consumes none. -/
def bestgates : Nat → GateMat → GateMat
  | 0, s => s
  | fuel + 1, s =>
    let n := s.n
    let io := if n = 8 then 0 else s.ind (2 * (n - 8) - 2)
    let jo := if n = 8 then 0 else s.ind (2 * (n - 8) - 1)
    finishUp n ((pairList n).foldl
      (loopStep (fun s2 => bestgates fuel s2) n s.g io jo)
      ⟨s, 1024, 0, fun _ => 0⟩)

/-- One iteration of the replay loop of `bestmat` (lines 161-166 of
bestboth.c): read the recorded pair `k`, recompute the overlap against
the current columns, factor it out of both and append it. -/
def replayStep (t : GateMat) (k : Nat) : GateMat :=
  let i := t.ind (k * 2)
  let j := t.ind (k * 2 + 1)
  let c := t.mat i &&& t.mat j
  let m1 := upd t.mat i (t.mat i ^^^ c)
  let m2 := upd m1 j (m1 j ^^^ c)
  { t with mat := upd m2 (k + 8) c }

/-- The replay loop of `bestmat` (lines 160-167 of bestboth.c). -/
def bestmatLoop (t0 : GateMat) (steps : Nat) : GateMat :=
  (List.range steps).foldl replayStep t0

/-- The reconstructor `bestmat` of bestboth.c.  `p` is the caller's
matrix, `t` the shared working state `test` as the search left it; the
result is the pair (new `*p`, new `test`). -/
def bestmat (p t : GateMat) : GateMat × GateMat :=
  let p2 := { p with g := t.g }
  let t1 := { t with mat := fun k => if k < 8 then p.mat k else t.mat k }
  (p2, bestmatLoop t1 (t.n - 8))

/-- Lines 206-211 of bestboth.c: the baseline gate count the driver
stores, `g = (Σ_{i<8} share[mat[i]]) - 8`. -/
def baselineG (m : Nat → Nat) : Int :=
  (((List.range 8).foldl (fun j i => j + share (m i)) 0 : Nat) : Int) - 8

/-- An initial 8-column state as the driver hands it to the engine:
columns `m`, `n = 8`, baseline gate count, empty history. -/
def mkInitial (m : Nat → Nat) : GateMat :=
  { mat := m, ind := fun _ => 0, n := 8, g := baselineG m }

/-! ## Specification-side definitions

These are written from the wording of the specification and of the
claims, to be compared with the code-derived definitions above. -/

/-- Claim-side baseline: the sum over the 8 original columns of
`popcount(column) - 1`. -/
def specBaseline (m : Nat → Nat) : Int :=
  (List.range 8).foldl (fun j i => j + (((specPopcount (m i)) : Int) - 1)) 0

/-- Claim-side: the most recently recorded history pair of a state, or
`(0, 0)` when `n` equals 8. -/
def lastRecordedPair (s : GateMat) : Nat × Nat :=
  if s.n = 8 then (0, 0)
  else (s.ind (2 * (s.n - 8) - 2), s.ind (2 * (s.n - 8) - 1))

/-- Claim-side: the savings of the overlap of columns `i` and `j`. -/
def overlapSavings (s : GateMat) (i j : Nat) : Nat := share (s.mat i &&& s.mat j)

/-- Claim-side canonical pruning: the pairs removed are exactly those
with `i < io`, `j ≠ io`, `j ≠ jo` and `j < n - 1`, where `(io, jo)` is
the most recently recorded history pair. -/
def canonPruned (s : GateMat) (i j : Nat) : Prop :=
  i < (lastRecordedPair s).1 ∧ j ≠ (lastRecordedPair s).1 ∧
    j ≠ (lastRecordedPair s).2 ∧ j < s.n - 1

instance (s : GateMat) (i j : Nat) : Decidable (canonPruned s i j) := by
  unfold canonPruned
  infer_instance

/-- Claim-side expansion condition of C5: nonzero savings and not
canonically pruned. -/
def specExpand (s : GateMat) (i j : Nat) : Prop :=
  overlapSavings s i j ≠ 0 ∧ ¬ canonPruned s i j

instance (s : GateMat) (i j : Nat) : Decidable (specExpand s i j) := by
  unfold specExpand
  infer_instance

/-! ## The S-box generator sboxalg.c -/

def A2X : List Nat := [0x98, 0xF3, 0xF2, 0x48, 0x09, 0x81, 0xA9, 0xFF]
def X2A : List Nat := [0x64, 0x78, 0x6E, 0x8C, 0x68, 0x29, 0xDE, 0x60]
def X2S : List Nat := [0x58, 0x2D, 0x9E, 0x0B, 0xDC, 0x04, 0x03, 0x24]
def S2X : List Nat := [0x8C, 0x79, 0x05, 0xEB, 0x12, 0x04, 0x51, 0x53]

/-- Multiply in GF(2^2), normal basis. -/
def G4_mul (x y : Nat) : Nat :=
  let a := (x &&& 2) >>> 1
  let b := x &&& 1
  let c := (y &&& 2) >>> 1
  let d := y &&& 1
  let e := (a ^^^ b) &&& (c ^^^ d)
  let p := (a &&& c) ^^^ e
  let q := (b &&& d) ^^^ e
  (p <<< 1) ||| q

/-- Scale by N = Omega^2 in GF(2^2). -/
def G4_scl_N (x : Nat) : Nat :=
  let a := (x &&& 2) >>> 1
  let b := x &&& 1
  let p := b
  let q := a ^^^ b
  (p <<< 1) ||| q

/-- Scale by N^2 = Omega in GF(2^2). -/
def G4_scl_N2 (x : Nat) : Nat :=
  let a := (x &&& 2) >>> 1
  let b := x &&& 1
  let p := a ^^^ b
  let q := a
  (p <<< 1) ||| q

/-- Square (= invert) in GF(2^2). -/
def G4_sq (x : Nat) : Nat :=
  let a := (x &&& 2) >>> 1
  let b := x &&& 1
  (b <<< 1) ||| a

/-- Multiply in GF(2^4), normal basis. -/
def G16_mul (x y : Nat) : Nat :=
  let a := (x &&& 0xC) >>> 2
  let b := x &&& 0x3
  let c := (y &&& 0xC) >>> 2
  let d := y &&& 0x3
  let e := G4_scl_N (G4_mul (a ^^^ b) (c ^^^ d))
  let p := G4_mul a c ^^^ e
  let q := G4_mul b d ^^^ e
  (p <<< 2) ||| q

/-- Square and scale by nu in GF(2^4). -/
def G16_sq_scl (x : Nat) : Nat :=
  let a := (x &&& 0xC) >>> 2
  let b := x &&& 0x3
  let p := G4_sq (a ^^^ b)
  let q := G4_scl_N2 (G4_sq b)
  (p <<< 2) ||| q

/-- Inverse in GF(2^4), normal basis. -/
def G16_inv (x : Nat) : Nat :=
  let a := (x &&& 0xC) >>> 2
  let b := x &&& 0x3
  let c := G4_scl_N (G4_sq (a ^^^ b))
  let d := G4_mul a b
  let e := G4_sq (c ^^^ d)
  let p := G4_mul e b
  let q := G4_mul e a
  (p <<< 2) ||| q

/-- Inverse in GF(2^8), normal basis. -/
def G256_inv (x : Nat) : Nat :=
  let a := (x &&& 0xF0) >>> 4
  let b := x &&& 0x0F
  let c := G16_sq_scl (a ^^^ b)
  let d := G16_mul a b
  let e := G16_inv (c ^^^ d)
  let p := G16_mul e b
  let q := G16_mul e a
  (p <<< 4) ||| q

/-- The loop of `G256_newbasis`: iteration with counter `i + 1` uses
`b[i]` against the current low bit of `x`, then shifts `x` right. -/
def nbLoop : Nat → Nat → List Nat → Nat
  | _, 0, _ => 0
  | x, i + 1, b => (if x &&& 1 = 1 then b.getD i 0 else 0) ^^^ nbLoop (x >>> 1) i b

/-- Basis change in GF(2^8): bit-matrix multiply. -/
def G256_newbasis (x : Nat) (b : List Nat) : Nat := nbLoop x 8 b

/-- The AES S-box as generated by sboxalg.c. -/
def Sbox (n : Nat) : Nat :=
  G256_newbasis (G256_inv (G256_newbasis n A2X)) X2S ^^^ 0x63

/-- The inverse AES S-box as generated by sboxalg.c. -/
def iSbox (n : Nat) : Nat :=
  G256_newbasis (G256_inv (G256_newbasis (n ^^^ 0x63) S2X)) X2A

/-- Decidable check that the two S-boxes invert each other at one byte. -/
def sboxPairOk (k : Nat) : Bool :=
  decide (iSbox (Sbox k) = k) && decide (Sbox (iSbox k) = k)

/-! ## Concrete columns used by the record-4 driver and by counterexamples -/

/-- The packed columns the driver builds for the pair (A2X, S2X) of input
record 4: low byte from A2X, high byte from S2X. -/
def rec4pair0 : Nat → Nat :=
  fun k => A2X.getD k 0 ||| (S2X.getD k 0 <<< 8)

/-- An 8-column matrix with exactly two shareable column pairs, used to
exhibit the stale working-state columns after the search returns. -/
def pairCols : Nat → Nat :=
  fun k => [0x07, 0x07, 0x18, 0x18, 0xE0, 0x700, 0x3800, 0xC000].getD k 0

/-! ## Basic equations of the engine's components -/

lemma saveStep_w (n : Nat) (acc : BestAcc) (w3 : GateMat) : (saveStep n acc w3).w = w3 := by
  unfold saveStep
  split <;> rfl

lemma finishUp_mat (n : Nat) (r : BestAcc) : (finishUp n r).mat = r.w.mat := by
  unfold finishUp
  split <;> rfl

lemma finishUp_g (n : Nat) (r : BestAcc) :
    (finishUp n r).g = if r.gb < 1024 then r.gb else r.w.g := by
  unfold finishUp
  split <;> simp_all

lemma combineStep_n (w : GateMat) (n : Nat) (g0 : Int) (i j : Nat) :
    (combineStep w n g0 i j).n = n + 1 := rfl

lemma combineStep_g (w : GateMat) (n : Nat) (g0 : Int) (i j : Nat) :
    (combineStep w n g0 i j).g = g0 - ((share (w.mat i &&& w.mat j) : Nat) : Int) := rfl

lemma branchStep_g (rec : GateMat → GateMat) (w : GateMat) (n : Nat) (g0 : Int) (i j : Nat) :
    (branchStep rec w n g0 i j).g = (rec (combineStep w n g0 i j)).g := rfl

lemma branchStep_n (rec : GateMat → GateMat) (w : GateMat) (n : Nat) (g0 : Int) (i j : Nat) :
    (branchStep rec w n g0 i j).n = (rec (combineStep w n g0 i j)).n := rfl

lemma bestgates_succ (f : Nat) (s : GateMat) :
    bestgates (f + 1) s = finishUp s.n ((pairList s.n).foldl
      (loopStep (fun s2 => bestgates f s2) s.n s.g
        (if s.n = 8 then 0 else s.ind (2 * (s.n - 8) - 2))
        (if s.n = 8 then 0 else s.ind (2 * (s.n - 8) - 1)))
      ⟨s, 1024, 0, fun _ => 0⟩) := rfl

lemma pairList_mem (n : Nat) (p : Nat × Nat) (hp : p ∈ pairList n) :
    p.1 < p.2 ∧ p.2 < n := by
  unfold pairList at hp
  rw [List.mem_bind] at hp
  obtain ⟨i, hi, hpi⟩ := hp
  rw [List.mem_filterMap] at hpi
  obtain ⟨j, hj, hij⟩ := hpi
  rw [List.mem_range] at hj
  by_cases h : i < j
  · rw [if_pos h] at hij
    cases hij
    exact ⟨h, hj⟩
  · rw [if_neg h] at hij
    cases hij

/-! ## Column restoration through the search -/

lemma branchStep_mat (rec : GateMat → GateMat)
    (hrec : ∀ w k, k < w.n → (rec w).mat k = w.mat k)
    (w : GateMat) (n : Nat) (g0 : Int) (i j : Nat)
    (hij : i < j) (hjn : j < n) :
    ∀ k, k < n → (branchStep rec w n g0 i j).mat k = w.mat k := by
  intro k hk
  show (upd (upd (rec (combineStep w n g0 i j)).mat i (w.mat i)) j (w.mat j)) k = w.mat k
  by_cases hkj : k = j
  · subst hkj
    simp [upd]
  · by_cases hki : k = i
    · subst hki
      simp [upd, hkj, Nat.ne_of_lt hij]
    · have hrw : (rec (combineStep w n g0 i j)).mat k = (combineStep w n g0 i j).mat k :=
        hrec _ k (by rw [combineStep_n]; omega)
      have hkn : k ≠ n := by omega
      simp only [upd, if_neg hkj, if_neg hki]
      rw [hrw]
      show (upd (upd (upd w.mat i (w.mat i ^^^ (w.mat i &&& w.mat j)))
        j ((upd w.mat i (w.mat i ^^^ (w.mat i &&& w.mat j))) j ^^^ (w.mat i &&& w.mat j)))
        n (w.mat i &&& w.mat j)) k = w.mat k
      simp [upd, hki, hkj, hkn]

lemma loopStep_w_mat (rec : GateMat → GateMat)
    (hrec : ∀ w k, k < w.n → (rec w).mat k = w.mat k)
    (n : Nat) (g0 : Int) (io jo : Nat) (M : Nat → Nat)
    (acc : BestAcc) (p : Nat × Nat) (hp1 : p.1 < p.2) (hp2 : p.2 < n)
    (hacc : ∀ k, k < n → acc.w.mat k = M k) :
    ∀ k, k < n → (loopStep rec n g0 io jo acc p).w.mat k = M k := by
  intro k hk
  unfold loopStep
  cases hE : expandDecision acc.w n io jo p.1 p.2 with
  | false =>
    rw [if_neg (by simp [hE])]
    exact hacc k hk
  | true =>
    rw [if_pos (by simp [hE]), saveStep_w]
    rw [branchStep_mat rec hrec acc.w n g0 p.1 p.2 hp1 hp2 k hk]
    exact hacc k hk

lemma foldl_loopStep_mat (rec : GateMat → GateMat)
    (hrec : ∀ w k, k < w.n → (rec w).mat k = w.mat k)
    (n : Nat) (g0 : Int) (io jo : Nat) (M : Nat → Nat) :
    ∀ (l : List (Nat × Nat)), (∀ p ∈ l, p.1 < p.2 ∧ p.2 < n) →
      ∀ acc, (∀ k, k < n → acc.w.mat k = M k) →
      ∀ k, k < n → (l.foldl (loopStep rec n g0 io jo) acc).w.mat k = M k := by
  intro l
  induction l with
  | nil => intro _ acc hacc k hk; exact hacc k hk
  | cons p rest ih =>
    intro hl acc hacc k hk
    rw [List.foldl_cons]
    have hp := hl p (by simp)
    exact ih (fun q hq => hl q (by simp [hq]))
      (loopStep rec n g0 io jo acc p)
      (loopStep_w_mat rec hrec n g0 io jo M acc p hp.1 hp.2 hacc) k hk

/-- Backtracking restores every column below the entry column count:
whatever the search does, the first `s.n` columns of the working state
are bit-identical on return to what they were on entry. -/
theorem bestgates_mat_invariant :
    ∀ (fuel : Nat) (s : GateMat) (k : Nat), k < s.n → (bestgates fuel s).mat k = s.mat k := by
  intro fuel
  induction fuel with
  | zero => intro s k _; rfl
  | succ f ih =>
    intro s k hk
    rw [bestgates_succ, finishUp_mat]
    exact foldl_loopStep_mat (fun s2 => bestgates f s2) (fun w k2 hk2 => ih w k2 hk2)
      s.n s.g _ _ s.mat (pairList s.n) (fun p hp => pairList_mem s.n p hp)
      ⟨s, 1024, 0, fun _ => 0⟩ (fun _ _ => rfl) k hk

/-! ## The expansion condition (C5) -/

lemma lastRecordedPair_fst (s : GateMat) :
    (if s.n = 8 then 0 else s.ind (2 * (s.n - 8) - 2)) = (lastRecordedPair s).1 := by
  unfold lastRecordedPair
  split <;> rfl

lemma lastRecordedPair_snd (s : GateMat) :
    (if s.n = 8 then 0 else s.ind (2 * (s.n - 8) - 1)) = (lastRecordedPair s).2 := by
  unfold lastRecordedPair
  split <;> rfl

lemma expandDecision_eq_spec (w s : GateMat) (i j : Nat)
    (hi : w.mat i = s.mat i) (hj : w.mat j = s.mat j) :
    expandDecision w s.n (lastRecordedPair s).1 (lastRecordedPair s).2 i j
      = decide (specExpand s i j) := by
  unfold expandDecision specExpand overlapSavings canonPruned
  rw [hi, hj]
  by_cases h1 : share (s.mat i &&& s.mat j) = 0
  · simp [h1]
  · by_cases h2 : i < (lastRecordedPair s).1 ∧ j ≠ (lastRecordedPair s).1 ∧
        j ≠ (lastRecordedPair s).2 ∧ j < s.n - 1
    · simp [h1, h2]
    · simp [h1, h2]

lemma expandDecision_true_share (w : GateMat) (n io jo i j : Nat)
    (h : expandDecision w n io jo i j = true) : share (w.mat i &&& w.mat j) ≠ 0 := by
  intro hshare
  simp [expandDecision, hshare] at h

lemma foldl_loopStep_filter (rec : GateMat → GateMat)
    (hrec : ∀ w k, k < w.n → (rec w).mat k = w.mat k) (s : GateMat) :
    ∀ (l : List (Nat × Nat)), (∀ p ∈ l, p.1 < p.2 ∧ p.2 < s.n) →
      ∀ acc, (∀ k, k < s.n → acc.w.mat k = s.mat k) →
      l.foldl (loopStep rec s.n s.g (lastRecordedPair s).1 (lastRecordedPair s).2) acc =
        (l.filter (fun p => decide (specExpand s p.1 p.2))).foldl
          (fun acc2 p => saveStep s.n acc2 (branchStep rec acc2.w s.n s.g p.1 p.2)) acc := by
  intro l
  induction l with
  | nil => intro _ acc _; rfl
  | cons p rest ih =>
    intro hl acc hacc
    have hp := hl p (by simp)
    have hE := expandDecision_eq_spec acc.w s p.1 p.2
      (hacc p.1 (Nat.lt_trans hp.1 hp.2)) (hacc p.2 hp.2)
    rw [List.foldl_cons]
    cases hsp : decide (specExpand s p.1 p.2) with
    | false =>
      have hstep : loopStep rec s.n s.g (lastRecordedPair s).1 (lastRecordedPair s).2 acc p
          = acc := by
        unfold loopStep
        rw [if_neg (by rw [hE, hsp]; simp)]
      rw [hstep, List.filter_cons_of_neg (by simp [hsp])]
      exact ih (fun q hq => hl q (by simp [hq])) acc hacc
    | true =>
      have hstep : loopStep rec s.n s.g (lastRecordedPair s).1 (lastRecordedPair s).2 acc p
          = saveStep s.n acc (branchStep rec acc.w s.n s.g p.1 p.2) := by
        unfold loopStep
        rw [if_pos (by rw [hE, hsp])]
      rw [hstep, List.filter_cons_of_pos (by simp [hsp]), List.foldl_cons]
      apply ih (fun q hq => hl q (by simp [hq]))
      intro k hk
      rw [saveStep_w]
      rw [branchStep_mat rec hrec acc.w s.n s.g p.1 p.2 hp.1 hp.2 k hk]
      exact hacc k hk

/-! ## Gate-count descent (C3) -/

lemma loopStep_g_inv (rec : GateMat → GateMat)
    (hrecg : ∀ w, w.g ≤ 1023 → (rec w).g ≤ w.g)
    (n : Nat) (g0 : Int) (hg : g0 ≤ 1023) (io jo : Nat)
    (acc : BestAcc) (p : Nat × Nat)
    (hacc : (acc.gb = 1024 ∧ acc.w.g = g0) ∨ (acc.gb < 1024 ∧ acc.gb ≤ g0 - 1)) :
    (let r := loopStep rec n g0 io jo acc p
     (r.gb = 1024 ∧ r.w.g = g0) ∨ (r.gb < 1024 ∧ r.gb ≤ g0 - 1)) := by
  unfold loopStep
  cases hE : expandDecision acc.w n io jo p.1 p.2 with
  | false =>
    rw [if_neg (by simp [hE])]
    exact hacc
  | true =>
    rw [if_pos (by simp [hE])]
    have hshare := expandDecision_true_share acc.w n io jo p.1 p.2 hE
    have ht : (1 : Int) ≤ ((share (acc.w.mat p.1 &&& acc.w.mat p.2) : Nat) : Int) := by
      exact_mod_cast Nat.one_le_iff_ne_zero.mpr hshare
    have hw1g : (combineStep acc.w n g0 p.1 p.2).g ≤ 1023 := by
      rw [combineStep_g]
      omega
    have hw3g : (branchStep rec acc.w n g0 p.1 p.2).g ≤ g0 - 1 := by
      rw [branchStep_g]
      have := hrecg (combineStep acc.w n g0 p.1 p.2) hw1g
      rw [combineStep_g] at this
      omega
    unfold saveStep
    split
    · right
      refine ⟨?_, ?_⟩
      · show (branchStep rec acc.w n g0 p.1 p.2).g < 1024
        omega
      · show (branchStep rec acc.w n g0 p.1 p.2).g ≤ g0 - 1
        exact hw3g
    · rename_i hnotlt
      have hn2 : ¬ ((branchStep rec acc.w n g0 p.1 p.2).g < acc.gb) := hnotlt
      rcases hacc with ⟨h1024, _⟩ | ⟨hlt, hle⟩
      · exfalso
        omega
      · right
        refine ⟨?_, ?_⟩
        · show acc.gb < 1024
          exact hlt
        · show acc.gb ≤ g0 - 1
          exact hle

lemma foldl_loopStep_g (rec : GateMat → GateMat)
    (hrecg : ∀ w, w.g ≤ 1023 → (rec w).g ≤ w.g)
    (n : Nat) (g0 : Int) (hg : g0 ≤ 1023) (io jo : Nat) :
    ∀ (l : List (Nat × Nat)) (acc : BestAcc),
      (acc.gb = 1024 ∧ acc.w.g = g0) ∨ (acc.gb < 1024 ∧ acc.gb ≤ g0 - 1) →
      (let r := l.foldl (loopStep rec n g0 io jo) acc
       (r.gb = 1024 ∧ r.w.g = g0) ∨ (r.gb < 1024 ∧ r.gb ≤ g0 - 1)) := by
  intro l
  induction l with
  | nil => intro acc hacc; exact hacc
  | cons p rest ih =>
    intro acc hacc
    rw [List.foldl_cons]
    exact ih (loopStep rec n g0 io jo acc p)
      (loopStep_g_inv rec hrecg n g0 hg io jo acc p hacc)

/-- The engine never increases the gate count: for any entry state whose
gate count is below the sentinel 1024, the state on return has a gate
count at most the entry one. -/
theorem bestgates_g_descent :
    ∀ (fuel : Nat) (s : GateMat), s.g ≤ 1023 → (bestgates fuel s).g ≤ s.g := by
  intro fuel
  induction fuel with
  | zero => intro s _; exact le_refl _
  | succ f ih =>
    intro s hg
    rw [bestgates_succ, finishUp_g]
    set io := (if s.n = 8 then 0 else s.ind (2 * (s.n - 8) - 2)) with hio
    set jo := (if s.n = 8 then 0 else s.ind (2 * (s.n - 8) - 1)) with hjo
    have hinv := foldl_loopStep_g (fun s2 => bestgates f s2) (fun w hw => ih w hw)
      s.n s.g hg io jo
      (pairList s.n) ⟨s, 1024, 0, fun _ => 0⟩ (Or.inl ⟨rfl, rfl⟩)
    simp only at hinv
    set r := (pairList s.n).foldl
      (loopStep (fun s2 => bestgates f s2) s.n s.g io jo)
      (⟨s, 1024, 0, fun _ => 0⟩ : BestAcc) with hrdef
    by_cases hlt : r.gb < 1024
    · rw [if_pos hlt]
      rcases hinv with ⟨h1024, _⟩ | ⟨_, hle⟩ <;> omega
    · rw [if_neg hlt]
      rcases hinv with ⟨_, hwg⟩ | ⟨hl2, _⟩ <;> omega

/-! ## Frame behaviour of the reconstructor (C10) -/

lemma replayStep_ind (t : GateMat) (k : Nat) : (replayStep t k).ind = t.ind := rfl

lemma replayStep_n (t : GateMat) (k : Nat) : (replayStep t k).n = t.n := rfl

lemma replayStep_g (t : GateMat) (k : Nat) : (replayStep t k).g = t.g := rfl

lemma foldl_replayStep_frame :
    ∀ (l : List Nat) (t0 : GateMat),
      (l.foldl replayStep t0).ind = t0.ind ∧ (l.foldl replayStep t0).n = t0.n ∧
        (l.foldl replayStep t0).g = t0.g := by
  intro l
  induction l with
  | nil => intro t0; exact ⟨rfl, rfl, rfl⟩
  | cons k rest ih =>
    intro t0
    rw [List.foldl_cons]
    obtain ⟨h1, h2, h3⟩ := ih (replayStep t0 k)
    exact ⟨by rw [h1, replayStep_ind], by rw [h2, replayStep_n], by rw [h3, replayStep_g]⟩

lemma bestmatLoop_frame (t0 : GateMat) (steps : Nat) :
    (bestmatLoop t0 steps).ind = t0.ind ∧ (bestmatLoop t0 steps).n = t0.n ∧
      (bestmatLoop t0 steps).g = t0.g :=
  foldl_replayStep_frame (List.range steps) t0

/-! ## Claim theorems -/

set_option maxRecDepth 100000

lemma share_cast_int (v : Nat) (h0 : v ≠ 0) (hv : v < 65536) :
    ((share v : Nat) : Int) = ((specPopcount v : Nat) : Int) - 1 := by
  unfold share
  rw [if_neg h0, bitcount_16 v hv]
  have := specPopcount_pos v h0 hv
  omega

lemma range8_eq : List.range 8 = [0, 1, 2, 3, 4, 5, 6, 7] := rfl

/-- C2 (counterexample): for the packed columns the driver builds for the
pair (A2X, S2X) of record 4, the stored baseline is 42, while the claimed
formula `Σ (popcount(column) - 1)` gives 50.  The claim as stated is
false on the code. -/
theorem baseline_claim_counterexample :
    baselineG rec4pair0 = 42 ∧ specBaseline rec4pair0 = 50 ∧
      baselineG rec4pair0 ≠ specBaseline rec4pair0 := by
  refine ⟨by decide, by decide, by decide⟩

/-- C2 (amended): for an 8-column matrix of nonzero 16-bit packed columns,
the baseline the driver stores is `Σ (popcount(column) - 1) - 8`
(equivalently `Σ popcount(column) - 16`): one XOR tree per output bit of
each of the two packed 8-row matrices. -/
theorem baseline_eq_popcount_sum_sub8 (m : Nat → Nat)
    (h : ∀ k, k < 8 → m k ≠ 0 ∧ m k < 65536) :
    baselineG m = specBaseline m - 8 := by
  have e0 := share_cast_int (m 0) (h 0 (by omega)).1 (h 0 (by omega)).2
  have e1 := share_cast_int (m 1) (h 1 (by omega)).1 (h 1 (by omega)).2
  have e2 := share_cast_int (m 2) (h 2 (by omega)).1 (h 2 (by omega)).2
  have e3 := share_cast_int (m 3) (h 3 (by omega)).1 (h 3 (by omega)).2
  have e4 := share_cast_int (m 4) (h 4 (by omega)).1 (h 4 (by omega)).2
  have e5 := share_cast_int (m 5) (h 5 (by omega)).1 (h 5 (by omega)).2
  have e6 := share_cast_int (m 6) (h 6 (by omega)).1 (h 6 (by omega)).2
  have e7 := share_cast_int (m 7) (h 7 (by omega)).1 (h 7 (by omega)).2
  unfold baselineG specBaseline
  rw [range8_eq]
  simp only [List.foldl_cons, List.foldl_nil]
  push_cast
  omega

/-- C2 (witness for the amended claim), instantiated at the record-4
columns of the reference scenario: 42 = 50 - 8. -/
theorem baseline_eq_popcount_sum_sub8_witness :
    (∀ k, k < 8 → rec4pair0 k ≠ 0 ∧ rec4pair0 k < 65536) ∧
      baselineG rec4pair0 = specBaseline rec4pair0 - 8 :=
  ⟨by decide, baseline_eq_popcount_sum_sub8 rec4pair0 (by decide)⟩

/-- C3: for every initial 8-column state the driver hands to the engine
(16-bit packed columns, baseline gate count), the gate count the engine
leaves in the state is at most the baseline it held on entry, for every
recursion-depth fuel. -/
theorem engine_g_le_baseline (fuel : Nat) (m : Nat → Nat)
    (h : ∀ k, k < 8 → m k < 65536) :
    (bestgates fuel (mkInitial m)).g ≤ (mkInitial m).g := by
  apply bestgates_g_descent
  show baselineG m ≤ 1023
  have b0 := share_le_15 (m 0) (h 0 (by omega))
  have b1 := share_le_15 (m 1) (h 1 (by omega))
  have b2 := share_le_15 (m 2) (h 2 (by omega))
  have b3 := share_le_15 (m 3) (h 3 (by omega))
  have b4 := share_le_15 (m 4) (h 4 (by omega))
  have b5 := share_le_15 (m 5) (h 5 (by omega))
  have b6 := share_le_15 (m 6) (h 6 (by omega))
  have b7 := share_le_15 (m 7) (h 7 (by omega))
  unfold baselineG
  rw [range8_eq]
  simp only [List.foldl_cons, List.foldl_nil]
  push_cast
  omega

/-- C3 (witness): a concrete run of the engine on an 8-column state. -/
theorem engine_g_le_baseline_witness :
    (∀ k, k < 8 → pairCols k < 65536) ∧
      (bestgates 4 (mkInitial pairCols)).g ≤ (mkInitial pairCols).g :=
  ⟨by decide, engine_g_le_baseline 4 pairCols (by decide)⟩

/-- C4 (counterexample): for the input pair `pairCols` the search returns
history [(0,1), (2,3)] (best branch), but the working state's appended
column 8 still holds the value 24 written by the last explored branch
(2,3); the reconstructor's replay of the returned history yields 7 there.
The replayed columns are not bit-identical to the working state's. -/
theorem reconstructor_mismatch_counterexample :
    (bestmat (mkInitial pairCols) (bestgates 64 (mkInitial pairCols))).2.mat 8 = 7 ∧
      (bestgates 64 (mkInitial pairCols)).mat 8 = 24 ∧
      (bestmat (mkInitial pairCols) (bestgates 64 (mkInitial pairCols))).2.mat 8 ≠
        (bestgates 64 (mkInitial pairCols)).mat 8 := by
  refine ⟨by decide, by decide, by decide⟩

/-- C4 (amended): the engine's working state at return does not hold the
replayed columns; instead, backtracking restores every column below the
entry column count to its entry value, so after the top-level call the
first 8 columns are the unfactored originals and the appended slots hold
stale values of the last explored branch.  The restoration is proved here
for every fuel and every entry state. -/
theorem search_restores_entry_columns (fuel : Nat) (s : GateMat) (k : Nat) (hk : k < s.n) :
    (bestgates fuel s).mat k = s.mat k :=
  bestgates_mat_invariant fuel s k hk

/-- C4 (witness for the amended claim). -/
theorem search_restores_entry_columns_witness :
    3 < (mkInitial pairCols).n ∧
      (bestgates 2 (mkInitial pairCols)).mat 3 = (mkInitial pairCols).mat 3 :=
  ⟨by decide, search_restores_entry_columns 2 (mkInitial pairCols) 3 (by decide)⟩

/-- C5: a candidate pair is expanded (combined and recursed into) exactly
when the savings of its overlap is nonzero and the pair is not
canonically pruned: a call of the engine equals the fold of the
unconditional combine-recurse-save step over exactly the pairs selected
by the claim-side predicate `specExpand` evaluated on the entry state. -/
theorem expansion_iff_spec (fuel : Nat) (s : GateMat) :
    bestgates (fuel + 1) s = finishUp s.n
      (((pairList s.n).filter (fun p => decide (specExpand s p.1 p.2))).foldl
        (fun acc p => saveStep s.n acc (branchStep (fun s2 => bestgates fuel s2) acc.w s.n s.g p.1 p.2))
        ⟨s, 1024, 0, fun _ => 0⟩) := by
  rw [bestgates_succ, lastRecordedPair_fst, lastRecordedPair_snd]
  congr 1
  exact foldl_loopStep_filter (fun s2 => bestgates fuel s2)
    (fun w k hk => bestgates_mat_invariant fuel w k hk) s
    (pairList s.n) (fun p hp => pairList_mem s.n p hp)
    ⟨s, 1024, 0, fun _ => 0⟩ (fun _ _ => rfl)

/-- C6: for every 16-bit pattern, the share-table entry equals
`popcount(v) - 1` for nonzero `v` and 0 for `v = 0`; a pattern with
exactly one set bit yields savings 0. -/
theorem share_table_spec (v : Nat) (hv : v < 65536) :
    (share v = if v = 0 then 0 else specPopcount v - 1) ∧
      (specPopcount v = 1 → share v = 0) := by
  constructor
  · unfold share
    by_cases h0 : v = 0
    · simp [h0]
    · rw [if_neg h0, if_neg h0, bitcount_16 v hv]
  · intro h1
    unfold share
    by_cases h0 : v = 0
    · simp [h0]
    · rw [if_neg h0, bitcount_16 v hv, h1]

/-- C6 (witness): the pattern 0x8001 has two set bits and savings 1. -/
theorem share_table_spec_witness :
    32769 < 65536 ∧
      ((share 32769 = if 32769 = 0 then 0 else specPopcount 32769 - 1) ∧
        (specPopcount 32769 = 1 → share 32769 = 0)) :=
  ⟨by decide, share_table_spec 32769 (by decide)⟩

/-- C7 (counterexample): after the recursion for the combine of pair
(0, 1) on the `pairCols` state returns, the backtrack step has restored
the two columns but the column count is 10, not the pre-combine 8: the
undo does not decrement `n`. -/
theorem undo_not_restore_n_counterexample :
    (branchStep (fun s2 => bestgates 64 s2) (mkInitial pairCols)
        (mkInitial pairCols).n (mkInitial pairCols).g 0 1).n = 10 ∧
      (mkInitial pairCols).n = 8 ∧
      (branchStep (fun s2 => bestgates 64 s2) (mkInitial pairCols)
          (mkInitial pairCols).n (mkInitial pairCols).g 0 1).n ≠ (mkInitial pairCols).n := by
  refine ⟨by decide, by decide, by decide⟩

/-- C7 (amended): the undo step after the recursive call restores
column i and column j to their pre-combine values, but leaves the column
count (and the gate count) exactly as the recursive call returned them;
`n` is not decremented back. -/
theorem undo_restores_columns_only (rec : GateMat → GateMat) (w : GateMat)
    (n : Nat) (g0 : Int) (i j : Nat) (hij : i ≠ j) :
    (branchStep rec w n g0 i j).mat i = w.mat i ∧
      (branchStep rec w n g0 i j).mat j = w.mat j ∧
      (branchStep rec w n g0 i j).n = (rec (combineStep w n g0 i j)).n ∧
      (branchStep rec w n g0 i j).g = (rec (combineStep w n g0 i j)).g := by
  refine ⟨?_, ?_, rfl, rfl⟩
  · show (upd (upd (rec (combineStep w n g0 i j)).mat i (w.mat i)) j (w.mat j)) i = w.mat i
    simp [upd, hij]
  · show (upd (upd (rec (combineStep w n g0 i j)).mat i (w.mat i)) j (w.mat j)) j = w.mat j
    simp [upd]

/-- C7 (witness for the amended claim). -/
theorem undo_restores_columns_only_witness :
    (0 : Nat) ≠ 1 ∧
      ((branchStep (fun s2 => bestgates 64 s2) (mkInitial pairCols) 8 5 0 1).mat 0 =
          (mkInitial pairCols).mat 0 ∧
        (branchStep (fun s2 => bestgates 64 s2) (mkInitial pairCols) 8 5 0 1).mat 1 =
          (mkInitial pairCols).mat 1 ∧
        (branchStep (fun s2 => bestgates 64 s2) (mkInitial pairCols) 8 5 0 1).n =
          ((fun s2 => bestgates 64 s2) (combineStep (mkInitial pairCols) 8 5 0 1)).n ∧
        (branchStep (fun s2 => bestgates 64 s2) (mkInitial pairCols) 8 5 0 1).g =
          ((fun s2 => bestgates 64 s2) (combineStep (mkInitial pairCols) 8 5 0 1)).g) :=
  ⟨by decide,
    undo_restores_columns_only (fun s2 => bestgates 64 s2) (mkInitial pairCols) 8 5 0 1 (by decide)⟩

/-- C8 (counterexample): a combine step applied to a state already
holding 128 columns (the declared capacity of `uint32_t mat[128]`) does
not assert or abort: it writes the new column at index 128, past the
capacity, and raises the column count to 129. -/
theorem capacity_overflow_write_counterexample :
    (combineStep ⟨fun _ => 3, fun _ => 0, 128, 0⟩ 128 0 0 1).n = 129 ∧
      (combineStep ⟨fun _ => 3, fun _ => 0, 128, 0⟩ 128 0 0 1).mat 128 = 3 ∧
      (combineStep ⟨fun _ => 3, fun _ => 0, 128, 0⟩ 128 0 0 1).n ≠ 128 := by
  refine ⟨by decide, by decide, by decide⟩

/-- C8 (amended): the implementation contains no capacity check at all: a
combine step at or beyond the fixed capacity of 128 columns continues
unconditionally, incrementing the column count and writing the overlap
column at the next index (in C, past the end of the array). -/
theorem combine_unchecked_at_capacity (w : GateMat) (n : Nat) (g0 : Int) (i j : Nat)
    (hn : 128 ≤ n) :
    (combineStep w n g0 i j).n = n + 1 ∧
      (combineStep w n g0 i j).mat n = w.mat i &&& w.mat j := by
  refine ⟨rfl, ?_⟩
  show (upd (upd (upd w.mat i (w.mat i ^^^ (w.mat i &&& w.mat j)))
      j ((upd w.mat i (w.mat i ^^^ (w.mat i &&& w.mat j))) j ^^^ (w.mat i &&& w.mat j)))
      n (w.mat i &&& w.mat j)) n = w.mat i &&& w.mat j
  simp [upd]

/-- C8 (witness for the amended claim). -/
theorem combine_unchecked_at_capacity_witness :
    128 ≤ 130 ∧
      ((combineStep ⟨fun _ => 5, fun _ => 0, 130, 7⟩ 130 7 2 3).n = 130 + 1 ∧
        (combineStep ⟨fun _ => 5, fun _ => 0, 130, 7⟩ 130 7 2 3).mat 130 =
          (⟨fun _ => 5, fun _ => 0, 130, 7⟩ : GateMat).mat 2 &&&
            (⟨fun _ => 5, fun _ => 0, 130, 7⟩ : GateMat).mat 3) :=
  ⟨by decide, combine_unchecked_at_capacity ⟨fun _ => 5, fun _ => 0, 130, 7⟩ 130 7 2 3 (by decide)⟩

lemma allRangeStep (m : Nat) (p : Nat → Bool) (h1 : (List.range m).all p = true)
    (h2 : (List.range 16).all (fun k => p (m + k)) = true) :
    (List.range (m + 16)).all p = true := by
  rw [List.range_add, List.all_append, List.all_map]
  exact (Bool.and_eq_true _ _).mpr ⟨h1, h2⟩

lemma sboxAll0 : (List.range 16).all sboxPairOk = true := by rfl

lemma sboxAll1 : (List.range 16).all (fun k => sboxPairOk (16 + k)) = true := by rfl

lemma sboxAll2 : (List.range 16).all (fun k => sboxPairOk (32 + k)) = true := by rfl

lemma sboxAll3 : (List.range 16).all (fun k => sboxPairOk (48 + k)) = true := by rfl

lemma sboxAll4 : (List.range 16).all (fun k => sboxPairOk (64 + k)) = true := by rfl

lemma sboxAll5 : (List.range 16).all (fun k => sboxPairOk (80 + k)) = true := by rfl

lemma sboxAll6 : (List.range 16).all (fun k => sboxPairOk (96 + k)) = true := by rfl

lemma sboxAll7 : (List.range 16).all (fun k => sboxPairOk (112 + k)) = true := by rfl

lemma sboxAll8 : (List.range 16).all (fun k => sboxPairOk (128 + k)) = true := by rfl

lemma sboxAll9 : (List.range 16).all (fun k => sboxPairOk (144 + k)) = true := by rfl

lemma sboxAll10 : (List.range 16).all (fun k => sboxPairOk (160 + k)) = true := by rfl

lemma sboxAll11 : (List.range 16).all (fun k => sboxPairOk (176 + k)) = true := by rfl

lemma sboxAll12 : (List.range 16).all (fun k => sboxPairOk (192 + k)) = true := by rfl

lemma sboxAll13 : (List.range 16).all (fun k => sboxPairOk (208 + k)) = true := by rfl

lemma sboxAll14 : (List.range 16).all (fun k => sboxPairOk (224 + k)) = true := by rfl

lemma sboxAll15 : (List.range 16).all (fun k => sboxPairOk (240 + k)) = true := by rfl

lemma sboxAll256 : (List.range 256).all sboxPairOk = true := by
  have h32 : (List.range 32).all sboxPairOk = true := allRangeStep 16 _ sboxAll0 sboxAll1
  have h48 : (List.range 48).all sboxPairOk = true := allRangeStep 32 _ h32 sboxAll2
  have h64 : (List.range 64).all sboxPairOk = true := allRangeStep 48 _ h48 sboxAll3
  have h80 : (List.range 80).all sboxPairOk = true := allRangeStep 64 _ h64 sboxAll4
  have h96 : (List.range 96).all sboxPairOk = true := allRangeStep 80 _ h80 sboxAll5
  have h112 : (List.range 112).all sboxPairOk = true := allRangeStep 96 _ h96 sboxAll6
  have h128 : (List.range 128).all sboxPairOk = true := allRangeStep 112 _ h112 sboxAll7
  have h144 : (List.range 144).all sboxPairOk = true := allRangeStep 128 _ h128 sboxAll8
  have h160 : (List.range 160).all sboxPairOk = true := allRangeStep 144 _ h144 sboxAll9
  have h176 : (List.range 176).all sboxPairOk = true := allRangeStep 160 _ h160 sboxAll10
  have h192 : (List.range 192).all sboxPairOk = true := allRangeStep 176 _ h176 sboxAll11
  have h208 : (List.range 208).all sboxPairOk = true := allRangeStep 192 _ h192 sboxAll12
  have h224 : (List.range 224).all sboxPairOk = true := allRangeStep 208 _ h208 sboxAll13
  have h240 : (List.range 240).all sboxPairOk = true := allRangeStep 224 _ h224 sboxAll14
  exact allRangeStep 240 _ h240 sboxAll15

/-- C9: the generated S-box and inverse S-box are mutually inverse
permutations of 0..255. -/
theorem sbox_inverse_permutation (n : Nat) (hn : n < 256) :
    iSbox (Sbox n) = n ∧ Sbox (iSbox n) = n := by
  have h := List.all_eq_true.mp sboxAll256 n (List.mem_range.mpr hn)
  unfold sboxPairOk at h
  rw [Bool.and_eq_true] at h
  exact ⟨of_decide_eq_true h.1, of_decide_eq_true h.2⟩

/-- C9 (witness). -/
theorem sbox_inverse_permutation_witness :
    77 < 256 ∧ (iSbox (Sbox 77) = 77 ∧ Sbox (iSbox 77) = 77) :=
  ⟨by decide, sbox_inverse_permutation 77 (by decide)⟩

/-- C10: the reconstructor changes only the caller matrix's gate count
(setting it to the working state's); the caller's columns, history and
column count are untouched; the working state keeps its column count,
gate count and history, and its column array is rewritten by replaying
the history from a copy whose first 8 entries are overwritten with the
caller's original columns. -/
theorem bestmat_frame (p t : GateMat) :
    (bestmat p t).1.mat = p.mat ∧ (bestmat p t).1.ind = p.ind ∧
      (bestmat p t).1.n = p.n ∧ (bestmat p t).1.g = t.g ∧
      (bestmat p t).2.n = t.n ∧ (bestmat p t).2.g = t.g ∧
      (bestmat p t).2.ind = t.ind ∧
      (bestmat p t).2 =
        bestmatLoop { t with mat := fun k => if k < 8 then p.mat k else t.mat k } (t.n - 8) := by
  obtain ⟨h1, h2, h3⟩ :=
    bestmatLoop_frame { t with mat := fun k => if k < 8 then p.mat k else t.mat k } (t.n - 8)
  exact ⟨rfl, rfl, rfl, rfl, h2, h3, h1, rfl⟩
